import Mathlib

/-!
Shallow embedding of the cleanmymac target registry and runner
(`src/cleanmymac/registry.py` and `src/cleanmymac/cli.py`).

Python dictionaries are modelled as insertion-ordered association lists
over `String` keys; assignment `d[k] = v` replaces the value at an
existing key in place (keeping its position) or appends a new binding.
Raising an exception is modelled with `Except`; the runner's observable
actions (log lines, instantiations, invocations, disk measurements) are
recorded in an event trace.
-/

namespace CleanMyMac

/-- A scalar YAML value; descriptors' `args` and per-target config values
are treated as opaque scalars, which is all the registry code inspects. -/
inductive YamlVal where
  | str (s : String)
  | num (n : Int)
  | boolVal (b : Bool)
  deriving DecidableEq, Repr

/-- A Python dict with `String` keys, as an insertion-ordered association list. -/
abbrev TDict := List (String × YamlVal)

/-- Lookup in an association list (Python `d[k]` / `k in d`). -/
def dictLookup (k : String) : List (String × α) → Option α
  | [] => none
  | (k', v) :: rest => if k' = k then some v else dictLookup k rest

/-- Python dict assignment `d[k] = v`: replace at the existing key
(keeping its position) or append a new binding at the end. -/
def dictInsert (k : String) (v : α) : List (String × α) → List (String × α)
  | [] => [(k, v)]
  | (k', v') :: rest => if k' = k then (k, v) :: rest else (k', v') :: dictInsert k v rest

/-- Modelled from the spec (constants.py is not under src/): the closed set
of YAML target type tags is TYPE_TARGET_CMD and TYPE_TARGET_DIR. -/
def TYPE_TARGET_CMD : String := "cmd"

/-- Modelled from the spec (constants.py is not under src/). -/
def TYPE_TARGET_DIR : String := "dir"

/-- Modelled from the spec: `VALID_TARGET_TYPES` (constants.py is not under
src/), the closed enum of YAML target kinds. -/
def VALID_TARGET_TYPES : List String := [TYPE_TARGET_CMD, TYPE_TARGET_DIR]

/-- registry.py line 34: the `__YAML_TYPES__` dispatch table, mapping a type
tag to the variant class name. -/
def yamlTypesMap : List (String × String) :=
  [(TYPE_TARGET_CMD, "YamlShellCommandTarget"), (TYPE_TARGET_DIR, "YamlDirTarget")]

/-- Modelled from the spec (target.py is not under src/): both YAML variant
classes implement the Target contract, i.e. are subclasses of `Target`. -/
def targetSubclasses : List String := ["YamlShellCommandTarget", "YamlDirTarget"]

/-- A parsed YAML target descriptor: required fields `type` and `args`
(schema.py is not under src/; per the spec, validation admits exactly the
descriptors with these fields, which this structure has by construction). -/
structure Descriptor where
  type : String
  args : YamlVal
  deriving DecidableEq, Repr

/-- The object built by `load_target`'s final line
`target_class(config, update=update, verbose=verbose)`: which variant class
was instantiated and with which constructor arguments. -/
structure BuiltTarget where
  cls : String
  config : TDict
  update : Bool
  verbose : Bool
  deriving DecidableEq, Repr

/-- Observable result of one `load_target` call: the returned value, the
final contents of the caller-passed dict (none when the caller passed
Python `None`), whether the caller's dict object was written to, and
whether `error(...)` was logged. -/
structure LoadResult where
  result : Option BuiltTarget
  finalCallerDict : Option TDict
  mutatedCaller : Bool
  errorLogged : Bool
  deriving DecidableEq, Repr

/-- registry.py lines 40-61, `load_target`, from the parsed descriptor
onward (the file open/parse is I/O; `config` is the caller's dict or
Python `None`). Lines 45-49: an unknown `type` logs an error and returns
`None`. Lines 52-56: the `issubclass` guard on the dispatched class.
Lines 58-60: `if not config: config = {}` rebinds a falsy argument (both
`None` and an empty dict) to a fresh dict, so only a non-empty caller dict
is mutated in place by `config['args'] = description['args']`. -/
def load_target (desc : Descriptor) (config : Option TDict)
    (update : Bool) (verbose : Bool) : LoadResult :=
  if VALID_TARGET_TYPES.contains desc.type = false then
    { result := none, finalCallerDict := config, mutatedCaller := false, errorLogged := true }
  else
    let target_class := (dictLookup desc.type yamlTypesMap).getD ""
    if targetSubclasses.contains target_class = false then
      { result := none, finalCallerDict := config, mutatedCaller := false, errorLogged := true }
    else
      match config with
      | none =>
        { result := some ⟨target_class, dictInsert "args" desc.args [], update, verbose⟩,
          finalCallerDict := none, mutatedCaller := false, errorLogged := false }
      | some d =>
        if d.isEmpty then
          { result := some ⟨target_class, dictInsert "args" desc.args [], update, verbose⟩,
            finalCallerDict := some d, mutatedCaller := false, errorLogged := false }
        else
          { result := some ⟨target_class, dictInsert "args" desc.args d, update, verbose⟩,
            finalCallerDict := some (dictInsert "args" desc.args d),
            mutatedCaller := true, errorLogged := false }

/-- The variant class `__YAML_TYPES__[_type]` dispatches to
(registry.py line 51). -/
def classFor (t : String) : String := (dictLookup t yamlTypesMap).getD ""

/-- The dict `load_target` holds after lines 58-59: the caller's dict,
with a Python-falsy argument (absent `None`, or an empty dict) replaced
by a fresh empty dict. -/
def effectiveConfig : Option TDict → TDict
  | none => []
  | some d => if d.isEmpty then [] else d

/-- A value stored in the `__TARGETS__` registry: either the deferred
loader `functools.partial(load_target, yaml_file)` (registry.py line 77)
or a class registered through `register_target` (line 68). -/
inductive RegEntry where
  | deferredLoad (file : String)
  | native (clsName : String)
  deriving DecidableEq, Repr

/-- The process-wide `__TARGETS__` mapping (registry.py line 33). -/
abbrev Registry := List (String × RegEntry)

/-- A Python value passed as the `target` argument of `register_target`:
either a class (carrying whether it is a subclass of `Target`) or any
non-class value. Python's `issubclass` raises `TypeError` unless its
first argument is a class. -/
inductive PyVal where
  | nonClass (txt : String)
  | cls (name : String) (isTargetSubclass : Bool)
  deriving DecidableEq, Repr

/-- The TypeError message Python's `issubclass` raises on a non-class
first argument. -/
def issubclassTypeMsg : String := "TypeError: issubclass() arg 1 must be a class"

/-- registry.py lines 64-70, `register_target`: `issubclass(target, Target)`
raises `TypeError` for a non-class argument (modelled as `.error`); a class
that is a `Target` subclass is stored under `name`; any other class logs an
error and leaves the registry unchanged. The `Bool` records whether
`error(...)` was logged. -/
def register_target (registry : Registry) (name : String) (target : PyVal) :
    Except String (Registry × Bool) :=
  match target with
  | .nonClass _ => .error issubclassTypeMsg
  | .cls c true => .ok (dictInsert name (RegEntry.native c) registry, false)
  | .cls _ false => .ok (registry, true)

/-- registry.py lines 73-77, `register_yaml_targets`: for every
`(name, yaml_file)` pair yielded by `yaml_files(path)` (util.py is not
under src/; modelled from the spec as the directory scan yielding one pair
per YAML file, name derived from the filename), store the deferred loader
under `name`. No parsing, validation or warning happens here. -/
def register_yaml_targets (registry : Registry) (files : List (String × String)) : Registry :=
  files.foldl (fun reg nf => dictInsert nf.1 (RegEntry.deferredLoad nf.2) reg) registry

/-- registry.py lines 80-86, `get_target`: the entry for `name`, or `none`
with a logged error (the `Bool`) when missing. -/
def get_target (registry : Registry) (name : String) : Option RegEntry × Bool :=
  match dictLookup name registry with
  | some e => (some e, false)
  | none => (none, true)

/-- Whether a YAML file on disk holds a valid target descriptor, relative
to a parsing environment `parseFile` (`none` models a malformed or
schema-invalid file): parseable and with a `type` in the closed set. -/
def descriptorValid (parseFile : String → Option Descriptor) (f : String) : Bool :=
  match parseFile f with
  | none => false
  | some d => VALID_TARGET_TYPES.contains d.type

deriving instance DecidableEq for Except

/-- The run-time behaviour of one constructed target instance, as the
runner observes it: `target.describe()` and `target()` each either return
normally or raise. -/
structure TargetBehavior where
  describeResult : Except String String
  invokeResult : Except String Unit
  deriving DecidableEq, Repr

/-- The outcome of calling a target initializer
(`target_initializer(target_cfg, update=update, verbose=verbose)`,
cli.py line 133): the call raises, returns an object failing the
`isinstance(target, Target)` check of line 135, or returns a Target. -/
inductive InitOutcome where
  | raised (msg : String)
  | notTarget (txt : String)
  | target (t : TargetBehavior)

/-- A target initializer as the runner calls it. -/
abbrev LoopInit := Option TDict → Bool → Bool → InitOutcome

/-- The global run configuration: target name → that target's config
sub-object (cli.py line 132 passes `config[name]` or `None`). -/
abbrev GlobalCfg := List (String × TDict)

/-- Observable actions of the cli run, in order. `logFound` is the count
line of cli.py line 108; `listed` the `-l` output of line 119;
`logCleaning` line 131; `instantiated` a normal return of the initializer
call of line 133; `errNotTarget` the `error(...)` of line 136;
`describedTarget` the `echo_warn(target.describe())` of line 140;
`invoked` the `target()` call of line 143; `errInvoke` the `error(...)`
of line 145; `diskMeasured` a `get_disk_usage` call (lines 122 and 153);
`logComplete` and `logFreed` lines 155-156. -/
inductive Event where
  | logFound (n : Nat)
  | listed (name : String)
  | logCleaning (name : String)
  | instantiated (name : String)
  | errNotTarget (name : String)
  | describedTarget (name : String) (text : String)
  | invoked (name : String)
  | errInvoke (name : String) (msg : String)
  | diskMeasured
  | logComplete
  | logFreed
  deriving DecidableEq, Repr

/-- How the target loop of cli.py lines 128-151 ended: fell off the end,
`break` at line 148, or an exception escaped the loop (only the
initializer call of line 133 and the `describe()` call of line 140 are
outside the `try` of line 142). -/
inductive LoopExit where
  | normal
  | broke
  | raisedExc (msg : String)
  deriving DecidableEq, Repr

/-- Whether an event names the given target. -/
def mentionsName (e : Event) (n : String) : Bool :=
  match e with
  | .listed m => m == n
  | .logCleaning m => m == n
  | .instantiated m => m == n
  | .errNotTarget m => m == n
  | .describedTarget m _ => m == n
  | .invoked m => m == n
  | .errInvoke m _ => m == n
  | _ => false

/-- The events the target loop itself can emit (everything except the
disk measurements and the closing report lines). -/
def isLoopEvent : Event → Bool
  | .logCleaning _ => true
  | .instantiated _ => true
  | .errNotTarget _ => true
  | .describedTarget _ _ => true
  | .invoked _ => true
  | .errInvoke _ _ => true
  | _ => false

/-- What one iteration of the target loop does: fall through to the next
iteration silently (`continue` at line 130), emit events and proceed, or
emit events and end the loop (`break`, or an exception escaping it). -/
inductive StepRes where
  | skip
  | next (evs : List Event)
  | halt (evs : List Event) (x : LoopExit)

/-- The events one loop iteration emitted. -/
def StepRes.evs : StepRes → List Event
  | .skip => []
  | .next es => es
  | .halt es _ => es

/-- cli.py line 131: `log_message('\ncleaning: ...')` — `log_message`
echoes when verbose and is a no-op in quiet mode. -/
def cleaningLog (verbose : Bool) (name : String) : List Event :=
  if verbose then [Event.logCleaning name] else []

/-- The body of the loop of cli.py lines 128-151, for one `(name, init)`
pair. Line 129 skips names not selected; line 131 logs only when verbose
(`log_message` is a no-op in quiet mode); line 132 resolves the
per-target config; line 133 calls the initializer (a raise here escapes
the loop); lines 135-137 report a non-Target result and continue; lines
139-140 call `describe()` in dry-run mode, outside any `try`, so a raise
escapes the loop; lines 142-148 call `target()` under `try`, log a
failure, and `break` when `stop_on_error` is set. -/
def targetStep (cfg : GlobalCfg) (targetNames : List String)
    (dryRun update verbose stopOnError : Bool)
    (name : String) (init : LoopInit) : StepRes :=
  if targetNames.contains name = false then .skip
  else
    match init (dictLookup name cfg) update verbose with
    | .raised m => .halt (cleaningLog verbose name) (.raisedExc m)
    | .notTarget _ =>
      .next (cleaningLog verbose name ++ [Event.instantiated name, Event.errNotTarget name])
    | .target t =>
      if dryRun then
        match t.describeResult with
        | .error m => .halt (cleaningLog verbose name ++ [Event.instantiated name]) (.raisedExc m)
        | .ok s =>
          .next (cleaningLog verbose name
            ++ [Event.instantiated name, Event.describedTarget name s])
      else
        match t.invokeResult with
        | .ok _ =>
          .next (cleaningLog verbose name ++ [Event.instantiated name, Event.invoked name])
        | .error m =>
          if stopOnError then
            .halt (cleaningLog verbose name ++ [Event.instantiated name, Event.invoked name,
                            Event.errInvoke name m]) .broke
          else
            .next (cleaningLog verbose name ++ [Event.instantiated name, Event.invoked name,
                            Event.errInvoke name m])

/-- cli.py lines 128-151: run `targetStep` over the snapshot sequentially,
collecting the event trace, until the list ends, the loop breaks, or an
exception escapes. -/
def targetLoop (cfg : GlobalCfg) (targetNames : List String)
    (dryRun update verbose stopOnError : Bool) :
    List (String × LoopInit) → List Event × LoopExit
  | [] => ([], .normal)
  | (name, init) :: rest =>
    match targetStep cfg targetNames dryRun update verbose stopOnError name init with
    | .skip => targetLoop cfg targetNames dryRun update verbose stopOnError rest
    | .next evs =>
      let r := targetLoop cfg targetNames dryRun update verbose stopOnError rest
      (evs ++ r.1, r.2)
    | .halt evs x => (evs, x)

/-- cli.py lines 121-156, the execute branch: free disk space is measured
before the loop (line 122) and, unless an exception escaped the loop,
again after it (line 153); the completion and freed-space lines 154-156
run only when not in dry-run mode, through the verbose-gated
`log_message`. The `Option String` is an exception propagating out of the
run. -/
def runProcess (cfg : GlobalCfg) (targetNames : List String)
    (dryRun update verbose stopOnError : Bool)
    (snapshot : List (String × LoopInit)) : List Event × Option String :=
  let r := targetLoop cfg targetNames dryRun update verbose stopOnError snapshot
  match r.2 with
  | .raisedExc m => (Event.diskMeasured :: r.1, some m)
  | _ =>
    (Event.diskMeasured :: (r.1 ++ [Event.diskMeasured]
       ++ (if dryRun = false then
             (if verbose then [Event.logComplete, Event.logFreed] else [])
           else [])), none)

/-- The cli's boolean flags and positional arguments. -/
structure CliOpts where
  update : Bool
  dryRun : Bool
  quiet : Bool
  listTargets : Bool
  stopOnError : Bool
  targetsArg : List String

/-- cli.py lines 99-156, the `cli` command body. `sem` gives the run-time
behaviour of calling a stored registry entry (the entries' effects live in
the filesystem and external processes); `extraDirs` are the directory
scans of the global configuration's `targets_path` entries and the `-t`
options, in order. Line 99 snapshots the registry as `all_targets`
BEFORE lines 112-115 register the extra YAML directories; both the `-l`
listing (lines 117-119) and the execute loop (lines 121-156) iterate the
snapshot. Returns the final registry, the event trace, and any escaped
exception. -/
def cli (sem : RegEntry → LoopInit) (registry0 : Registry) (globalCfg : GlobalCfg)
    (extraDirs : List (List (String × String))) (o : CliOpts) :
    Registry × List Event × Option String :=
  let all_targets : List (String × LoopInit) := registry0.map (fun p => (p.1, sem p.2))
  let verbose := !o.quiet
  let target_names :=
    if o.targetsArg.isEmpty then all_targets.map Prod.fst else o.targetsArg
  let evFound := if verbose then [Event.logFound all_targets.length] else []
  let registry1 := extraDirs.foldl (fun r files => register_yaml_targets r files) registry0
  if o.listTargets then
    (registry1, evFound ++ all_targets.map (fun p => Event.listed p.1), none)
  else
    let r := runProcess globalCfg target_names o.dryRun o.update verbose o.stopOnError all_targets
    (registry1, evFound ++ r.1, r.2)

/-- An initializer producing a well-behaved target: `describe()` returns
a fixed string and `target()` succeeds. -/
def initOk : LoopInit := fun _ _ _ => InitOutcome.target ⟨Except.ok "noop", Except.ok ()⟩

/-- An initializer whose target's `target()` call raises. -/
def initInvokeFails (msg : String) : LoopInit :=
  fun _ _ _ => InitOutcome.target ⟨Except.ok "noop", Except.error msg⟩

/-- An initializer whose target's `describe()` call raises. -/
def initDescribeFails (msg : String) : LoopInit :=
  fun _ _ _ => InitOutcome.target ⟨Except.error msg, Except.ok ()⟩

/-- A call semantics under which every registry entry behaves well. -/
def semOk : RegEntry → LoopInit := fun _ => initOk

/-! ### Association-list lemmas -/

theorem dictLookup_insert_self (k : String) (v : α) (l : List (String × α)) :
    dictLookup k (dictInsert k v l) = some v := by
  induction l with
  | nil => simp [dictInsert, dictLookup]
  | cons hd tl ih =>
    obtain ⟨k', v'⟩ := hd
    by_cases h : k' = k
    · simp [dictInsert, dictLookup, h]
    · simp [dictInsert, dictLookup, h, ih]

theorem dictLookup_insert_of_ne (k k' : String) (hne : k' ≠ k) (v : α)
    (l : List (String × α)) :
    dictLookup k (dictInsert k' v l) = dictLookup k l := by
  have hne2 : k ≠ k' := Ne.symm hne
  induction l with
  | nil => simp [dictInsert, dictLookup, hne]
  | cons hd tl ih =>
    obtain ⟨k0, v0⟩ := hd
    by_cases h : k0 = k'
    · subst h
      simp [dictInsert, dictLookup, hne, hne2]
    · by_cases h2 : k0 = k <;> simp [dictInsert, dictLookup, h, h2, hne, hne2, ih]

theorem dictLookup_insert_isSome (k k' : String) (v : α) (l : List (String × α))
    (h : (dictLookup k l).isSome = true) :
    (dictLookup k (dictInsert k' v l)).isSome = true := by
  by_cases hk : k' = k
  · subst hk
    rw [dictLookup_insert_self]
    rfl
  · rw [dictLookup_insert_of_ne _ _ hk]
    exact h

/-! ### register_yaml_targets lemmas -/

theorem register_yaml_targets_cons (reg : Registry) (nf : String × String)
    (files : List (String × String)) :
    register_yaml_targets reg (nf :: files)
      = register_yaml_targets (dictInsert nf.1 (RegEntry.deferredLoad nf.2) reg) files := rfl

theorem register_yaml_targets_keeps (reg : Registry) (files : List (String × String))
    (n : String) (h : (dictLookup n reg).isSome = true) :
    (dictLookup n (register_yaml_targets reg files)).isSome = true := by
  induction files generalizing reg with
  | nil => exact h
  | cons hd tl ih =>
    rw [register_yaml_targets_cons]
    exact ih _ (dictLookup_insert_isSome _ _ _ _ h)

theorem register_yaml_targets_mem (n f : String) :
    ∀ (files : List (String × String)) (reg : Registry), (n, f) ∈ files →
      (dictLookup n (register_yaml_targets reg files)).isSome = true := by
  intro files
  induction files with
  | nil => intro reg h; cases h
  | cons hd tl ih =>
    intro reg h
    rw [register_yaml_targets_cons]
    rcases List.mem_cons.mp h with he | ht
    · apply register_yaml_targets_keeps
      have h1 : hd.1 = n := by rw [← he]
      rw [h1, dictLookup_insert_self]
      rfl
    · exact ih _ ht

theorem register_yaml_targets_not_mem (n : String) :
    ∀ (files : List (String × String)) (reg : Registry), n ∉ files.map Prod.fst →
      dictLookup n (register_yaml_targets reg files) = dictLookup n reg := by
  intro files
  induction files with
  | nil => intro reg _; rfl
  | cons hd tl ih =>
    intro reg h
    simp only [List.map_cons, List.mem_cons, not_or] at h
    rw [register_yaml_targets_cons, ih _ h.2,
        dictLookup_insert_of_ne _ _ (fun he => h.1 he.symm)]

/-! ### targetStep lemmas -/

theorem mem_cleaningLog (v : Bool) (name : String) (e : Event)
    (he : e ∈ cleaningLog v name) : e = Event.logCleaning name := by
  cases v <;> simp_all [cleaningLog]

theorem targetStep_of_not_selected (cfg : GlobalCfg) (names : List String)
    (d u v s : Bool) (name : String) (init : LoopInit)
    (h : names.contains name = false) :
    targetStep cfg names d u v s name init = .skip := by
  unfold targetStep
  rw [if_pos h]

theorem targetStep_evs_mentions (cfg : GlobalCfg) (names : List String)
    (d u v s : Bool) (name : String) (init : LoopInit) (e : Event)
    (he : e ∈ (targetStep cfg names d u v s name init).evs) (m : String)
    (hm : mentionsName e m = true) : m = name := by
  unfold targetStep at he
  repeat' split at he
  all_goals simp only [StepRes.evs] at he
  all_goals
    first
      | exact absurd he (List.not_mem_nil e)
      | (have h1 := mem_cleaningLog _ _ _ he
         subst h1
         simp only [mentionsName, beq_iff_eq] at hm
         exact hm.symm)
      | (rcases List.mem_append.mp he with h1 | h2
         · have h1e := mem_cleaningLog _ _ _ h1
           subst h1e
           simp only [mentionsName, beq_iff_eq] at hm
           exact hm.symm
         · fin_cases h2 <;>
             · simp only [mentionsName, beq_iff_eq] at hm
               exact hm.symm)

theorem targetStep_evs_isLoopEvent (cfg : GlobalCfg) (names : List String)
    (d u v s : Bool) (name : String) (init : LoopInit) (e : Event)
    (he : e ∈ (targetStep cfg names d u v s name init).evs) :
    isLoopEvent e = true := by
  unfold targetStep at he
  repeat' split at he
  all_goals simp only [StepRes.evs] at he
  all_goals
    first
      | exact absurd he (List.not_mem_nil e)
      | (have h1 := mem_cleaningLog _ _ _ he
         subst h1
         rfl)
      | (rcases List.mem_append.mp he with h1 | h2
         · have h1e := mem_cleaningLog _ _ _ h1
           subst h1e
           rfl
         · fin_cases h2 <;> rfl)

theorem targetStep_no_invoke_of_dryRun (cfg : GlobalCfg) (names : List String)
    (u v s : Bool) (name : String) (init : LoopInit) (n : String)
    (he : Event.invoked n ∈ (targetStep cfg names true u v s name init).evs) : False := by
  cases v <;>
    (unfold targetStep at he
     repeat' split at he) <;>
    simp_all [StepRes.evs, cleaningLog]

theorem targetStep_ne_halt_normal (cfg : GlobalCfg) (names : List String)
    (d u v s : Bool) (name : String) (init : LoopInit) (evs : List Event) :
    targetStep cfg names d u v s name init ≠ .halt evs .normal := by
  unfold targetStep
  repeat' split
  all_goals intro h
  all_goals simp_all

theorem targetStep_no_halt (cfg : GlobalCfg) (names : List String)
    (u v : Bool) (name : String) (init : LoopInit)
    (hna : ∀ m, init (dictLookup name cfg) u v ≠ .raised m)
    (evs : List Event) (x : LoopExit) :
    targetStep cfg names false u v false name init ≠ .halt evs x := by
  unfold targetStep
  repeat' split
  all_goals intro h
  all_goals simp_all

/-! ### targetLoop lemmas -/

theorem targetLoop_nil (cfg : GlobalCfg) (names : List String) (d u v s : Bool) :
    targetLoop cfg names d u v s [] = ([], .normal) := rfl

theorem targetLoop_append (cfg : GlobalCfg) (names : List String) (d u v s : Bool)
    (l1 l2 : List (String × LoopInit)) :
    targetLoop cfg names d u v s (l1 ++ l2) =
      (if (targetLoop cfg names d u v s l1).2 = .normal then
         ((targetLoop cfg names d u v s l1).1 ++ (targetLoop cfg names d u v s l2).1,
          (targetLoop cfg names d u v s l2).2)
       else targetLoop cfg names d u v s l1) := by
  induction l1 with
  | nil => simp [targetLoop]
  | cons hd tl ih =>
    obtain ⟨name, init⟩ := hd
    simp only [List.cons_append, targetLoop]
    cases hs : targetStep cfg names d u v s name init with
    | skip => exact ih
    | next evs =>
      simp only [List.append_eq] at ih ⊢
      rw [ih]
      by_cases h2 : (targetLoop cfg names d u v s tl).2 = LoopExit.normal <;>
        simp [h2, List.append_assoc]
    | halt evs x =>
      have hx : x ≠ LoopExit.normal := fun hx =>
        targetStep_ne_halt_normal cfg names d u v s name init evs (hx ▸ hs)
      simp [hx]

theorem targetLoop_mentions (cfg : GlobalCfg) (names : List String) (d u v s : Bool)
    (l : List (String × LoopInit)) (e : Event)
    (he : e ∈ (targetLoop cfg names d u v s l).1) (m : String)
    (hm : mentionsName e m = true) : m ∈ l.map Prod.fst := by
  induction l with
  | nil => simp [targetLoop] at he
  | cons hd tl ih =>
    obtain ⟨name, init⟩ := hd
    simp only [targetLoop] at he
    cases hs : targetStep cfg names d u v s name init with
    | skip =>
      rw [hs] at he
      exact List.mem_cons_of_mem _ (ih he)
    | next evs =>
      rw [hs] at he
      rcases List.mem_append.mp he with h1 | h2
      · have hmn : m = name :=
          targetStep_evs_mentions cfg names d u v s name init e (by rw [hs]; exact h1) m hm
        simp only [List.map_cons, List.mem_cons]
        exact Or.inl hmn
      · exact List.mem_cons_of_mem _ (ih h2)
    | halt evs x =>
      rw [hs] at he
      have hmn : m = name :=
        targetStep_evs_mentions cfg names d u v s name init e (by rw [hs]; exact he) m hm
      simp only [List.map_cons, List.mem_cons]
      exact Or.inl hmn

theorem targetLoop_isLoopEvent (cfg : GlobalCfg) (names : List String) (d u v s : Bool)
    (l : List (String × LoopInit)) (e : Event)
    (he : e ∈ (targetLoop cfg names d u v s l).1) : isLoopEvent e = true := by
  induction l with
  | nil => simp [targetLoop] at he
  | cons hd tl ih =>
    obtain ⟨name, init⟩ := hd
    simp only [targetLoop] at he
    cases hs : targetStep cfg names d u v s name init with
    | skip =>
      rw [hs] at he
      exact ih he
    | next evs =>
      rw [hs] at he
      rcases List.mem_append.mp he with h1 | h2
      · exact targetStep_evs_isLoopEvent cfg names d u v s name init e (by rw [hs]; exact h1)
      · exact ih h2
    | halt evs x =>
      rw [hs] at he
      exact targetStep_evs_isLoopEvent cfg names d u v s name init e (by rw [hs]; exact he)

theorem targetLoop_no_invoke_of_dryRun (cfg : GlobalCfg) (names : List String)
    (u v s : Bool) (l : List (String × LoopInit)) (n : String)
    (he : Event.invoked n ∈ (targetLoop cfg names true u v s l).1) : False := by
  induction l with
  | nil => simp [targetLoop] at he
  | cons hd tl ih =>
    obtain ⟨name, init⟩ := hd
    simp only [targetLoop] at he
    cases hs : targetStep cfg names true u v s name init with
    | skip =>
      rw [hs] at he
      exact ih he
    | next evs =>
      rw [hs] at he
      rcases List.mem_append.mp he with h1 | h2
      · exact targetStep_no_invoke_of_dryRun cfg names u v s name init n (by rw [hs]; exact h1)
      · exact ih h2
    | halt evs x =>
      rw [hs] at he
      exact targetStep_no_invoke_of_dryRun cfg names u v s name init n (by rw [hs]; exact he)

theorem targetLoop_exit_normal (cfg : GlobalCfg) (names : List String)
    (u v : Bool) (l : List (String × LoopInit))
    (hna : ∀ p ∈ l, ∀ m, p.2 (dictLookup p.1 cfg) u v ≠ .raised m) :
    (targetLoop cfg names false u v false l).2 = .normal := by
  induction l with
  | nil => rfl
  | cons hd tl ih =>
    obtain ⟨name, init⟩ := hd
    have htl : ∀ p ∈ tl, ∀ m, p.2 (dictLookup p.1 cfg) u v ≠ InitOutcome.raised m :=
      fun p hp => hna p (List.mem_cons_of_mem _ hp)
    simp only [targetLoop]
    cases hs : targetStep cfg names false u v false name init with
    | skip => exact ih htl
    | next evs => exact ih htl
    | halt evs x =>
      exact absurd hs
        (targetStep_no_halt cfg names u v name init
          (hna (name, init) (List.mem_cons_self _ _)) evs x)

theorem targetStep_congr (cfg : GlobalCfg) (names names2 : List String)
    (d u v s : Bool) (name : String) (init : LoopInit)
    (h : names.contains name = names2.contains name) :
    targetStep cfg names d u v s name init = targetStep cfg names2 d u v s name init := by
  unfold targetStep
  rw [h]

theorem targetLoop_congr (cfg : GlobalCfg) (names names2 : List String)
    (d u v s : Bool) (l : List (String × LoopInit))
    (h : ∀ p ∈ l, names.contains p.1 = names2.contains p.1) :
    targetLoop cfg names d u v s l = targetLoop cfg names2 d u v s l := by
  induction l with
  | nil => rfl
  | cons hd tl ih =>
    obtain ⟨name, init⟩ := hd
    have h1 := h (name, init) (List.mem_cons_self _ _)
    have h2 : ∀ p ∈ tl, names.contains p.1 = names2.contains p.1 :=
      fun p hp => h p (List.mem_cons_of_mem _ hp)
    simp only [targetLoop, targetStep_congr cfg names names2 d u v s name init h1, ih h2]

/-! ### Claim C5 -/

/-- Claim C5: `load_target` returns no target (and logs an error) exactly
when the descriptor's type is outside the closed set of valid target
types; otherwise it returns an instance of the variant class selected by
the type tag, constructed with the given update and verbose flags and a
config dict — the passed config, with an absent or empty config treated
as an empty mapping — whose args key holds the descriptor's args. -/
theorem load_target_dispatch (desc : Descriptor) (config : Option TDict) (u v : Bool) :
    (VALID_TARGET_TYPES.contains desc.type = false →
       (load_target desc config u v).result = none
       ∧ (load_target desc config u v).errorLogged = true)
    ∧ (VALID_TARGET_TYPES.contains desc.type = true →
       (load_target desc config u v).result
         = some ⟨classFor desc.type, dictInsert "args" desc.args (effectiveConfig config), u, v⟩
       ∧ (load_target desc config u v).errorLogged = false) := by
  obtain ⟨ty, args⟩ := desc
  constructor
  · intro h
    have hm : ty ∉ VALID_TARGET_TYPES := by simpa using h
    simp [load_target, hm]
  · intro h
    have hty : ty = TYPE_TARGET_CMD ∨ ty = TYPE_TARGET_DIR := by
      simpa [VALID_TARGET_TYPES] using h
    rcases hty with h1 | h1 <;> subst h1 <;>
      (rcases config with _ | d
       · simp [load_target, classFor, effectiveConfig, TYPE_TARGET_CMD, TYPE_TARGET_DIR,
           VALID_TARGET_TYPES, yamlTypesMap, targetSubclasses, dictLookup]
       · rcases Decidable.em (d = []) with hd | hd <;>
           simp [load_target, classFor, effectiveConfig, List.isEmpty_iff, TYPE_TARGET_CMD,
             TYPE_TARGET_DIR, VALID_TARGET_TYPES, yamlTypesMap, targetSubclasses,
             dictLookup, hd])

/-- Witness for C5 at concrete inputs: a valid cmd descriptor builds a
YamlShellCommandTarget with args merged into the caller's config, and an
invalid type yields no target. -/
theorem load_target_dispatch_witness :
    (load_target ⟨"cmd", YamlVal.str "brew cleanup"⟩ (some [("k", YamlVal.num 1)]) true false).result
      = some ⟨"YamlShellCommandTarget",
          [("k", YamlVal.num 1), ("args", YamlVal.str "brew cleanup")], true, false⟩
    ∧ (load_target ⟨"bogus", YamlVal.str "x"⟩ none false false).result = none := by
  constructor
  · have h := (load_target_dispatch ⟨"cmd", YamlVal.str "brew cleanup"⟩
      (some [("k", YamlVal.num 1)]) true false).2 (by decide)
    rw [h.1]
    decide
  · have h := (load_target_dispatch ⟨"bogus", YamlVal.str "x"⟩ none false false).1 (by decide)
    exact h.1

/-! ### Claim C10 -/

/-- Claim C10 counterexample: with a non-empty caller config but a
descriptor whose type is invalid, `load_target` returns at line 49,
before the config handling of lines 58-60, so the caller's dict is not
mutated and no args key is set — refuting the claim's "for every
non-empty config dictionary". -/
theorem load_target_no_mutation_on_invalid_type :
    (load_target ⟨"bogus", YamlVal.str "x"⟩
        (some [("k", YamlVal.str "v")]) false false).mutatedCaller = false
    ∧ (load_target ⟨"bogus", YamlVal.str "x"⟩
        (some [("k", YamlVal.str "v")]) false false).finalCallerDict
      = some [("k", YamlVal.str "v")]
    ∧ dictLookup "args" [("k", YamlVal.str "v")] = none := by decide

/-- Claim C10 (amended): for every non-empty config dict passed to
`load_target` together with a descriptor whose type is valid, the
caller's dict is mutated in place — its args key is set to the
descriptor's args (overwriting any existing entry), every other key is
unchanged, and the constructed target holds that same dict; a fresh dict
is used instead exactly when the passed config is absent or empty (the
caller's merely-empty dict stays untouched). -/
theorem load_target_in_place (desc : Descriptor) (d : TDict) (u v : Bool)
    (hv : VALID_TARGET_TYPES.contains desc.type = true)
    (hne : d.isEmpty = false) :
    (load_target desc (some d) u v).mutatedCaller = true
    ∧ (load_target desc (some d) u v).finalCallerDict
        = some (dictInsert "args" desc.args d)
    ∧ dictLookup "args" (dictInsert "args" desc.args d) = some desc.args
    ∧ (∀ k, k ≠ "args" → dictLookup k (dictInsert "args" desc.args d) = dictLookup k d)
    ∧ (load_target desc (some d) u v).result
        = some ⟨classFor desc.type, dictInsert "args" desc.args d, u, v⟩
    ∧ (load_target desc (some []) u v).mutatedCaller = false
    ∧ (load_target desc none u v).mutatedCaller = false := by
  obtain ⟨ty, args⟩ := desc
  have hty : ty = TYPE_TARGET_CMD ∨ ty = TYPE_TARGET_DIR := by
    simpa [VALID_TARGET_TYPES] using hv
  have hd : ¬ d = [] := by simpa [List.isEmpty_iff] using hne
  refine ⟨?_, ?_, dictLookup_insert_self _ _ _,
    fun k hk => dictLookup_insert_of_ne _ _ (fun he => hk he.symm) _ _, ?_, ?_, ?_⟩ <;>
    rcases hty with h1 | h1 <;> subst h1 <;>
      simp [load_target, classFor, TYPE_TARGET_CMD, TYPE_TARGET_DIR,
        VALID_TARGET_TYPES, yamlTypesMap, targetSubclasses, dictLookup, hd]

/-- Witness for C10 at a concrete non-empty config and valid type. -/
theorem load_target_in_place_witness :
    (load_target ⟨"dir", YamlVal.str "~/tmp"⟩
        (some [("k", YamlVal.str "v")]) false true).mutatedCaller = true
    ∧ (load_target ⟨"dir", YamlVal.str "~/tmp"⟩
        (some [("k", YamlVal.str "v")]) false true).finalCallerDict
      = some (dictInsert "args" (YamlVal.str "~/tmp") [("k", YamlVal.str "v")])
    ∧ dictLookup "k" (dictInsert "args" (YamlVal.str "~/tmp") [("k", YamlVal.str "v")])
      = dictLookup "k" [("k", YamlVal.str "v")] := by
  have h := load_target_in_place ⟨"dir", YamlVal.str "~/tmp"⟩
    [("k", YamlVal.str "v")] false true (by decide) (by decide)
  exact ⟨h.1, h.2.1, h.2.2.2.1 "k" (by decide)⟩

/-! ### Claim C2 -/

/-- Claim C2 counterexample: a directory whose scan yields one descriptor
file that is invalid (here: unparseable under the given environment)
still produces a registry entry for it, and `register_yaml_targets`
raises no warning path at all — contrary to the claim that invalid files
get a warning and no entry. -/
theorem register_yaml_targets_invalid_registered :
    register_yaml_targets [] [("bad", "bad.yaml")]
      = [("bad", RegEntry.deferredLoad "bad.yaml")]
    ∧ descriptorValid (fun _ => none) "bad.yaml" = false := by decide

/-- Claim C2 (amended): `register_yaml_targets` registers the deferred
loader for every file the directory scan yields, valid or not — no
validation happens at registration time (a descriptor's validity is only
examined when the deferred `load_target` runs, where an invalid type
logs an error and produces no target); names outside the scanned files
keep their previous registry entries. -/
theorem register_yaml_targets_no_validation (reg : Registry) (files : List (String × String)) :
    (∀ n f, (n, f) ∈ files →
       (dictLookup n (register_yaml_targets reg files)).isSome = true)
    ∧ (∀ n, n ∉ files.map Prod.fst →
       dictLookup n (register_yaml_targets reg files) = dictLookup n reg) :=
  ⟨fun n f h => register_yaml_targets_mem n f files reg h,
   fun n h => register_yaml_targets_not_mem n files reg h⟩

/-- Witness for C2's amended theorem at a concrete registry and scan. -/
theorem register_yaml_targets_no_validation_witness :
    (dictLookup "x"
        (register_yaml_targets [("old", RegEntry.native "O")] [("x", "x.yaml")])).isSome = true
    ∧ dictLookup "old"
        (register_yaml_targets [("old", RegEntry.native "O")] [("x", "x.yaml")])
      = some (RegEntry.native "O") := by
  have h := register_yaml_targets_no_validation [("old", RegEntry.native "O")] [("x", "x.yaml")]
  refine ⟨h.1 "x" "x.yaml" (by decide), ?_⟩
  rw [h.2 "old" (by decide)]
  rfl

/-! ### Claim C6 -/

/-- Claim C6 counterexample: a non-class argument (e.g. the integer 42)
makes `issubclass(target, Target)` itself raise TypeError, so
`register_target` raises rather than logging — refuting the claim's
"for every argument ... does not raise". -/
theorem register_target_nonclass_raises :
    register_target [] "x" (PyVal.nonClass "42") = .error issubclassTypeMsg := rfl

/-- Claim C6 (amended): for a class argument that is not a subclass of
Target, `register_target` logs an error, does not raise, and leaves the
registry unchanged; for a Target subclass it adds (or replaces) the
binding for the name, leaving the bindings of all other names unchanged;
but for a non-class argument, `issubclass` raises TypeError, which
propagates. -/
theorem register_target_semantics (reg : Registry) (name : String) :
    (∀ c, register_target reg name (PyVal.cls c false) = .ok (reg, true))
    ∧ (∀ c, register_target reg name (PyVal.cls c true)
          = .ok (dictInsert name (RegEntry.native c) reg, false)
        ∧ dictLookup name (dictInsert name (RegEntry.native c) reg)
            = some (RegEntry.native c)
        ∧ ∀ n, n ≠ name →
            dictLookup n (dictInsert name (RegEntry.native c) reg) = dictLookup n reg)
    ∧ (∀ s, register_target reg name (PyVal.nonClass s) = .error issubclassTypeMsg) :=
  ⟨fun _ => rfl,
   fun _ => ⟨rfl, dictLookup_insert_self _ _ _,
     fun _ hn => dictLookup_insert_of_ne _ _ (fun he => hn he.symm) _ _⟩,
   fun _ => rfl⟩

/-! ### More targetStep and runProcess lemmas -/

theorem targetStep_invoked_mem (cfg : GlobalCfg) (names : List String) (u v : Bool)
    (name : String) (init : LoopInit) (t : TargetBehavior)
    (hc : names.contains name = true)
    (hi : init (dictLookup name cfg) u v = .target t) :
    ∃ evs, targetStep cfg names false u v false name init = .next evs
      ∧ Event.invoked name ∈ evs := by
  have hm : name ∈ names := by simpa using hc
  rcases hr : t.invokeResult with m | u0
  · refine ⟨cleaningLog v name ++ [Event.instantiated name, Event.invoked name,
      Event.errInvoke name m], ?_, by simp⟩
    simp [targetStep, hm, hi, hr]
  · refine ⟨cleaningLog v name ++ [Event.instantiated name, Event.invoked name], ?_, by simp⟩
    simp [targetStep, hm, hi, hr]

theorem targetStep_fail_stop (cfg : GlobalCfg) (names : List String) (u v : Bool)
    (name : String) (init : LoopInit) (t : TargetBehavior) (m : String)
    (hc : names.contains name = true)
    (hi : init (dictLookup name cfg) u v = .target t)
    (hf : t.invokeResult = .error m) :
    targetStep cfg names false u v true name init
      = .halt (cleaningLog v name ++ [Event.instantiated name, Event.invoked name,
          Event.errInvoke name m]) .broke := by
  have hm : name ∈ names := by simpa using hc
  simp [targetStep, hm, hi, hf]

theorem targetStep_describe_fail (cfg : GlobalCfg) (names : List String) (u v s : Bool)
    (name : String) (init : LoopInit) (t : TargetBehavior) (m : String)
    (hc : names.contains name = true)
    (hi : init (dictLookup name cfg) u v = .target t)
    (hd : t.describeResult = .error m) :
    targetStep cfg names true u v s name init
      = .halt (cleaningLog v name ++ [Event.instantiated name]) (.raisedExc m) := by
  have hm : name ∈ names := by simpa using hc
  simp [targetStep, hm, hi, hd]

theorem diskMeasured_not_in_targetLoop (cfg : GlobalCfg) (names : List String)
    (d u v s : Bool) (l : List (String × LoopInit))
    (h : Event.diskMeasured ∈ (targetLoop cfg names d u v s l).1) : False := by
  have := targetLoop_isLoopEvent cfg names d u v s l Event.diskMeasured h
  simp [isLoopEvent] at this

theorem logFreed_not_in_targetLoop (cfg : GlobalCfg) (names : List String)
    (d u v s : Bool) (l : List (String × LoopInit))
    (h : Event.logFreed ∈ (targetLoop cfg names d u v s l).1) : False := by
  have := targetLoop_isLoopEvent cfg names d u v s l Event.logFreed h
  simp [isLoopEvent] at this

theorem runProcess_raised (cfg : GlobalCfg) (names : List String)
    (d u v s : Bool) (snapshot : List (String × LoopInit)) (m : String)
    (h : (targetLoop cfg names d u v s snapshot).2 = .raisedExc m) :
    runProcess cfg names d u v s snapshot
      = (Event.diskMeasured :: (targetLoop cfg names d u v s snapshot).1, some m) := by
  simp [runProcess, h]

theorem runProcess_done (cfg : GlobalCfg) (names : List String)
    (d u v s : Bool) (snapshot : List (String × LoopInit))
    (h : ∀ m, (targetLoop cfg names d u v s snapshot).2 ≠ .raisedExc m) :
    runProcess cfg names d u v s snapshot
      = (Event.diskMeasured :: ((targetLoop cfg names d u v s snapshot).1
          ++ [Event.diskMeasured]
          ++ (if d = false then (if v then [Event.logComplete, Event.logFreed] else [])
              else [])),
         none) := by
  rcases hx : (targetLoop cfg names d u v s snapshot).2 with _ | _ | m
  · simp [runProcess, hx]
  · simp [runProcess, hx]
  · exact absurd hx (h m)

theorem runProcess_event_cases (cfg : GlobalCfg) (names : List String)
    (d u v s : Bool) (snapshot : List (String × LoopInit)) (e : Event)
    (h : e ∈ (runProcess cfg names d u v s snapshot).1) :
    e ∈ (targetLoop cfg names d u v s snapshot).1
    ∨ e = Event.diskMeasured ∨ e = Event.logComplete ∨ e = Event.logFreed := by
  rcases hx : (targetLoop cfg names d u v s snapshot).2 with _ | _ | m
  case raisedExc =>
    rw [runProcess_raised cfg names d u v s snapshot m hx] at h
    rcases List.mem_cons.mp h with h1 | h1
    · exact Or.inr (Or.inl h1)
    · exact Or.inl h1
  all_goals
    rw [runProcess_done cfg names d u v s snapshot (by simp [hx])] at h
    rcases List.mem_cons.mp h with h1 | h1
    · exact Or.inr (Or.inl h1)
    · rcases List.mem_append.mp h1 with h2 | h2
      · rcases List.mem_append.mp h2 with h3 | h3
        · exact Or.inl h3
        · simp only [List.mem_cons, List.not_mem_nil, or_false] at h3
          exact Or.inr (Or.inl h3)
      · rcases Decidable.em (d = false) with hd | hd
        · rw [if_pos hd] at h2
          rcases Decidable.em (v = true) with hv | hv
          · rw [if_pos hv] at h2
            simp only [List.mem_cons, List.not_mem_nil, or_false] at h2
            rcases h2 with h2 | h2
            · exact Or.inr (Or.inr (Or.inl h2))
            · exact Or.inr (Or.inr (Or.inr h2))
          · rw [if_neg hv] at h2
            exact absurd h2 (List.not_mem_nil e)
        · rw [if_neg hd] at h2
          exact absurd h2 (List.not_mem_nil e)

theorem mem_runProcess_of_mem_targetLoop (cfg : GlobalCfg) (names : List String)
    (d u v s : Bool) (snapshot : List (String × LoopInit)) (e : Event)
    (h : e ∈ (targetLoop cfg names d u v s snapshot).1) :
    e ∈ (runProcess cfg names d u v s snapshot).1 := by
  rcases hx : (targetLoop cfg names d u v s snapshot).2 with _ | _ | m
  case raisedExc =>
    rw [runProcess_raised cfg names d u v s snapshot m hx]
    exact List.mem_cons_of_mem _ h
  all_goals
    rw [runProcess_done cfg names d u v s snapshot (by simp [hx])]
    exact List.mem_cons_of_mem _ (List.mem_append_left _ (List.mem_append_left _ h))

theorem invoked_mem_targetLoop_of_runProcess (cfg : GlobalCfg) (names : List String)
    (d u v s : Bool) (snapshot : List (String × LoopInit)) (n : String)
    (h : Event.invoked n ∈ (runProcess cfg names d u v s snapshot).1) :
    Event.invoked n ∈ (targetLoop cfg names d u v s snapshot).1 := by
  rcases runProcess_event_cases cfg names d u v s snapshot _ h with h1 | h1 | h1 | h1
  · exact h1
  all_goals exact absurd h1 (by simp)

/-- Witness for C6's amended theorem at a concrete registry. -/
theorem register_target_semantics_witness :
    register_target [("old", RegEntry.native "O")] "x" (PyVal.cls "T" true)
      = .ok ([("old", RegEntry.native "O"), ("x", RegEntry.native "T")], false)
    ∧ dictLookup "old" (dictInsert "x" (RegEntry.native "T") [("old", RegEntry.native "O")])
      = some (RegEntry.native "O") := by
  have h := register_target_semantics [("old", RegEntry.native "O")] "x"
  refine ⟨?_, (h.2.1 "T").2.2 "old" (by decide)⟩
  rw [(h.2.1 "T").1]
  rfl

/-! ### Claim C3 -/

/-- Claim C3 counterexample: a concrete dry-run invocation still measures
free disk space twice — cli.py lines 122 and 153 run unconditionally —
refuting the claim's "no disk-space measurement at all" in dry-run. -/
theorem dry_run_measures_disk :
    (runProcess [] ["a"] true false true false [("a", initOk)]).1.count Event.diskMeasured = 2
    ∧ (runProcess [] ["a"] true false true false [("a", initOk)]).2 = none := by decide

/-- Claim C3 (amended): in dry-run mode the Runner calls only describe()
on each selected target — no target is ever invoked — and reports no
freed-space total; but the two free-disk-space measurements around the
loop are unconditional: a dry-run run that completes without an escaped
exception measures free space exactly twice (immediately before the
first target and immediately after the last), exactly as an execute run
does; an execute run additionally reports the freed-space delta when
verbose. -/
theorem dry_run_execute_accounting (cfg : GlobalCfg) (names : List String)
    (u v s : Bool) (snapshot : List (String × LoopInit)) :
    (∀ n, Event.invoked n ∉ (runProcess cfg names true u v s snapshot).1)
    ∧ Event.logFreed ∉ (runProcess cfg names true u v s snapshot).1
    ∧ ((runProcess cfg names true u v s snapshot).2 = none →
        (runProcess cfg names true u v s snapshot).1.count Event.diskMeasured = 2)
    ∧ ((runProcess cfg names false u v s snapshot).2 = none →
        (runProcess cfg names false u v s snapshot).1.count Event.diskMeasured = 2
        ∧ (v = true → Event.logFreed ∈ (runProcess cfg names false u v s snapshot).1)) := by
  refine ⟨?_, ?_, ?_, ?_⟩
  · intro n hn
    exact absurd (invoked_mem_targetLoop_of_runProcess cfg names true u v s snapshot n hn)
      (fun h => targetLoop_no_invoke_of_dryRun cfg names u v s snapshot n h)
  · intro hmem
    rcases runProcess_event_cases cfg names true u v s snapshot _ hmem with h1 | h1 | h1 | h1
    · exact logFreed_not_in_targetLoop cfg names true u v s snapshot h1
    · exact Event.noConfusion h1
    · exact Event.noConfusion h1
    · -- logFreed can only come from the report tail, which dry-run skips
      rcases hx : (targetLoop cfg names true u v s snapshot).2 with _ | _ | m
      case raisedExc =>
        rw [runProcess_raised cfg names true u v s snapshot m hx] at hmem
        rcases List.mem_cons.mp hmem with h2 | h2
        · exact Event.noConfusion h2
        · exact logFreed_not_in_targetLoop cfg names true u v s snapshot h2
      all_goals
        rw [runProcess_done cfg names true u v s snapshot (by simp [hx])] at hmem
        rcases List.mem_cons.mp hmem with h2 | h2
        · exact Event.noConfusion h2
        rcases List.mem_append.mp h2 with h3 | h3
        · rcases List.mem_append.mp h3 with h4 | h4
          · exact logFreed_not_in_targetLoop cfg names true u v s snapshot h4
          · simp at h4
        · simp at h3
  · intro h2
    rcases hx : (targetLoop cfg names true u v s snapshot).2 with _ | _ | m
    case raisedExc =>
      rw [runProcess_raised cfg names true u v s snapshot m hx] at h2
      exact absurd h2 (by simp)
    all_goals
      have h0 : (targetLoop cfg names true u v s snapshot).1.count Event.diskMeasured = 0 :=
        List.count_eq_zero.mpr
          (fun hc => diskMeasured_not_in_targetLoop cfg names true u v s snapshot hc)
      rw [runProcess_done cfg names true u v s snapshot (by simp [hx])]
      simp [List.count_cons, List.count_append, h0]
  · intro h2
    rcases hx : (targetLoop cfg names false u v s snapshot).2 with _ | _ | m
    case raisedExc =>
      rw [runProcess_raised cfg names false u v s snapshot m hx] at h2
      exact absurd h2 (by simp)
    all_goals
      have h0 : (targetLoop cfg names false u v s snapshot).1.count Event.diskMeasured = 0 :=
        List.count_eq_zero.mpr
          (fun hc => diskMeasured_not_in_targetLoop cfg names false u v s snapshot hc)
      rw [runProcess_done cfg names false u v s snapshot (by simp [hx])]
      constructor
      · have htail : (if v = true then [Event.logComplete, Event.logFreed]
            else ([] : List Event)).count Event.diskMeasured = 0 := by
          rcases Decidable.em (v = true) with hv | hv <;> simp [hv]
        simp [List.count_cons, List.count_append, h0, htail]
      · intro hv
        simp [hv]

/-- Witness for C3's amended theorem at concrete dry-run and execute
runs. -/
theorem dry_run_execute_accounting_witness :
    (runProcess [] ["a"] true false true false [("a", initOk)]).1.count Event.diskMeasured = 2
    ∧ Event.logFreed ∈ (runProcess [] ["a"] false false true false [("a", initOk)]).1 := by
  have h := dry_run_execute_accounting [] ["a"] false true false [("a", initOk)]
  exact ⟨h.2.2.1 (by decide), (h.2.2.2 (by decide)).2 rfl⟩

/-! ### Claim C9 -/

/-- Claim C9: in dry-run mode an exception raised by a target's
describe() is not caught by the per-target handler (the try of cli.py
line 142 guards only the invoke call), so it propagates out of the
target loop and aborts the entire run — for either value of
stop_on_error — and no target after the raising one is instantiated. -/
theorem describe_exception_aborts (cfg : GlobalCfg) (names : List String)
    (u v so : Bool) (p1 p3 : List (String × LoopInit))
    (X : String) (iX : LoopInit) (t : TargetBehavior) (m : String)
    (hn : (targetLoop cfg names true u v so p1).2 = .normal)
    (hc : names.contains X = true)
    (hi : iX (dictLookup X cfg) u v = .target t)
    (hd : t.describeResult = .error m) :
    (runProcess cfg names true u v so (p1 ++ (X, iX) :: p3)).2 = some m
    ∧ ∀ n, n ∉ p1.map Prod.fst → n ≠ X →
        Event.instantiated n ∉ (runProcess cfg names true u v so (p1 ++ (X, iX) :: p3)).1 := by
  have hstep := targetStep_describe_fail cfg names u v so X iX t m hc hi hd
  have hcons : targetLoop cfg names true u v so ((X, iX) :: p3)
      = (cleaningLog v X ++ [Event.instantiated X], .raisedExc m) := by
    simp [targetLoop, hstep]
  have hloop : targetLoop cfg names true u v so (p1 ++ (X, iX) :: p3)
      = ((targetLoop cfg names true u v so p1).1
          ++ (cleaningLog v X ++ [Event.instantiated X]), .raisedExc m) := by
    rw [targetLoop_append, if_pos hn, hcons]
  have hrp := runProcess_raised cfg names true u v so (p1 ++ (X, iX) :: p3) m (by rw [hloop])
  constructor
  · rw [hrp]
  · intro n hn1 hn2 hmem
    rw [hrp, hloop] at hmem
    rcases List.mem_cons.mp hmem with h1 | h1
    · exact Event.noConfusion h1
    rcases List.mem_append.mp h1 with h2 | h2
    · exact hn1 (targetLoop_mentions cfg names true u v so p1 _ h2 n (by simp [mentionsName]))
    rcases List.mem_append.mp h2 with h3 | h3
    · have := mem_cleaningLog _ _ _ h3
      exact Event.noConfusion this
    · simp only [List.mem_cons, List.not_mem_nil, or_false] at h3
      exact hn2 (by injection h3)

/-- Witness for C9: a two-target dry run where the first target's
describe raises aborts with that exception even with stop_on_error set,
and the second target is never instantiated. -/
theorem describe_exception_aborts_witness :
    (runProcess [] ["x", "y"] true false true true
        [("x", initDescribeFails "boom"), ("y", initOk)]).2 = some "boom"
    ∧ Event.instantiated "y" ∉ (runProcess [] ["x", "y"] true false true true
        [("x", initDescribeFails "boom"), ("y", initOk)]).1 := by
  have h := describe_exception_aborts [] ["x", "y"] false true true [] [("y", initOk)]
    "x" (initDescribeFails "boom") ⟨Except.error "boom", Except.ok ()⟩ "boom"
    rfl (by decide) rfl rfl
  exact ⟨h.1, h.2 "y" (by decide) (by decide)⟩

/-! ### Claim C4 -/

/-- Claim C4: in an execute run over the snapshot in iteration order,
with stop_on_error set, a target A whose invocation raises makes the
loop break after reporting A's error, so a later target B is never
invoked; with stop_on_error unset, B is invoked regardless of A's
failure (B being selected, resolving to a Target, and no earlier
initializer call itself raising). -/
theorem stop_on_error_semantics (cfg : GlobalCfg) (names : List String)
    (u v : Bool) (p1 p2 p3 : List (String × LoopInit))
    (A B : String) (iA iB : LoopInit) (tA : TargetBehavior) (mA : String)
    (hA : names.contains A = true)
    (hiA : iA (dictLookup A cfg) u v = .target tA)
    (hfA : tA.invokeResult = .error mA)
    (hB : B ∉ (p1 ++ (A, iA) :: p2).map Prod.fst) :
    Event.invoked B ∉
        (runProcess cfg names false u v true (p1 ++ (A, iA) :: (p2 ++ (B, iB) :: p3))).1
    ∧ (∀ tB, names.contains B = true →
        iB (dictLookup B cfg) u v = .target tB →
        (∀ p ∈ p1 ++ p2, ∀ m, p.2 (dictLookup p.1 cfg) u v ≠ .raised m) →
        Event.invoked B ∈
          (runProcess cfg names false u v false (p1 ++ (A, iA) :: (p2 ++ (B, iB) :: p3))).1) := by
  have hBp1 : B ∉ p1.map Prod.fst := fun h =>
    hB (by rw [List.map_append]; exact List.mem_append_left _ h)
  have hBA : B ≠ A := fun h =>
    hB (by
      subst h
      rw [List.map_append, List.map_cons]
      exact List.mem_append_right _ (List.mem_cons_self _ _))
  have hBp2 : B ∉ p2.map Prod.fst := fun h =>
    hB (by
      rw [List.map_append, List.map_cons]
      exact List.mem_append_right _ (List.mem_cons_of_mem _ h))
  constructor
  · intro hmem
    have hloopmem := invoked_mem_targetLoop_of_runProcess cfg names false u v true _ B hmem
    rw [targetLoop_append] at hloopmem
    by_cases hp1n : (targetLoop cfg names false u v true p1).2 = LoopExit.normal
    · rw [if_pos hp1n] at hloopmem
      have hsA := targetStep_fail_stop cfg names u v A iA tA mA hA hiA hfA
      have hconsA : targetLoop cfg names false u v true ((A, iA) :: (p2 ++ (B, iB) :: p3))
          = (cleaningLog v A ++ [Event.instantiated A, Event.invoked A,
              Event.errInvoke A mA], .broke) := by
        simp [targetLoop, hsA]
      rw [hconsA] at hloopmem
      rcases List.mem_append.mp hloopmem with h1 | h1
      · exact hBp1
          (targetLoop_mentions cfg names false u v true p1 _ h1 B (by simp [mentionsName]))
      · rcases List.mem_append.mp h1 with h2 | h2
        · exact Event.noConfusion (mem_cleaningLog _ _ _ h2)
        · simp only [List.mem_cons, List.not_mem_nil, or_false] at h2
          rcases h2 with h2 | h2 | h2
          · exact Event.noConfusion h2
          · exact hBA (Event.invoked.inj h2)
          · exact Event.noConfusion h2
    · rw [if_neg hp1n] at hloopmem
      exact hBp1
        (targetLoop_mentions cfg names false u v true p1 _ hloopmem B (by simp [mentionsName]))
  · intro tB hcB hiB hnr
    have hp1 := targetLoop_exit_normal cfg names u v p1
      (fun p hp => hnr p (List.mem_append_left _ hp))
    have hp2 := targetLoop_exit_normal cfg names u v p2
      (fun p hp => hnr p (List.mem_append_right _ hp))
    obtain ⟨evsA, hsA, _⟩ := targetStep_invoked_mem cfg names u v A iA tA hA hiA
    obtain ⟨evsB, hsB, hmemB⟩ := targetStep_invoked_mem cfg names u v B iB tB hcB hiB
    have hmemB3 : Event.invoked B
        ∈ (targetLoop cfg names false u v false ((B, iB) :: p3)).1 := by
      simp only [targetLoop, hsB]
      exact List.mem_append_left _ hmemB
    have hmem2 : Event.invoked B
        ∈ (targetLoop cfg names false u v false (p2 ++ (B, iB) :: p3)).1 := by
      rw [targetLoop_append, if_pos hp2]
      exact List.mem_append_right _ hmemB3
    have hmemA : Event.invoked B ∈ (targetLoop cfg names false u v false
        ((A, iA) :: (p2 ++ (B, iB) :: p3))).1 := by
      simp only [targetLoop, hsA]
      exact List.mem_append_right _ hmem2
    have hmemL : Event.invoked B ∈ (targetLoop cfg names false u v false
        (p1 ++ (A, iA) :: (p2 ++ (B, iB) :: p3))).1 := by
      rw [targetLoop_append, if_pos hp1]
      exact List.mem_append_right _ hmemA
    exact mem_runProcess_of_mem_targetLoop cfg names false u v false _ _ hmemL

/-- Witness for C4 at a concrete two-target run: with stop_on_error, "b"
is never invoked after "a" fails; without it, "b" is invoked. -/
theorem stop_on_error_semantics_witness :
    Event.invoked "b" ∉ (runProcess [] ["a", "b"] false false true true
        [("a", initInvokeFails "boom"), ("b", initOk)]).1
    ∧ Event.invoked "b" ∈ (runProcess [] ["a", "b"] false false true false
        [("a", initInvokeFails "boom"), ("b", initOk)]).1 := by
  have h := stop_on_error_semantics [] ["a", "b"] false true [] [] []
    "a" "b" (initInvokeFails "boom") initOk ⟨Except.ok "noop", Except.error "boom"⟩ "boom"
    (by decide) rfl rfl (by decide)
  exact ⟨h.1, h.2 ⟨Except.ok "noop", Except.ok ()⟩ (by decide) rfl (by simp)⟩

/-! ### Claim C7 -/

/-- Claim C7: selecting exactly the names A and C out of a snapshot
containing exactly A, B and C in iteration order executes exactly A then
C — the full execute trace is A's events followed by C's events and the
closing accounting — and B is never instantiated or invoked. -/
theorem explicit_selection (cfg : GlobalCfg) (u v so : Bool)
    (nA nB nC : String) (iA iB iC : LoopInit) (tA tC : TargetBehavior)
    (hab : nA ≠ nB) (hbc : nB ≠ nC)
    (hiA : iA (dictLookup nA cfg) u v = .target tA) (hA : tA.invokeResult = .ok ())
    (hiC : iC (dictLookup nC cfg) u v = .target tC) (hC : tC.invokeResult = .ok ()) :
    (runProcess cfg [nA, nC] false u v so [(nA, iA), (nB, iB), (nC, iC)]).1
      = Event.diskMeasured ::
        (cleaningLog v nA ++ ([Event.instantiated nA, Event.invoked nA]
          ++ (cleaningLog v nC ++ ([Event.instantiated nC, Event.invoked nC]
          ++ ([Event.diskMeasured]
          ++ (if v = true then [Event.logComplete, Event.logFreed] else []))))))
    ∧ Event.instantiated nB ∉ (runProcess cfg [nA, nC] false u v so
        [(nA, iA), (nB, iB), (nC, iC)]).1
    ∧ Event.invoked nB ∉ (runProcess cfg [nA, nC] false u v so
        [(nA, iA), (nB, iB), (nC, iC)]).1 := by
  have hBA : nB ≠ nA := Ne.symm hab
  have hmA : nA ∈ ([nA, nC] : List String) := by simp
  have hmC : nC ∈ ([nA, nC] : List String) := by simp
  have hmB : nB ∉ ([nA, nC] : List String) := by
    simp only [List.mem_cons, List.not_mem_nil, or_false, not_or]
    exact ⟨hBA, hbc⟩
  have hcB : (([nA, nC] : List String).contains nB) = false := by simpa using hmB
  have hsA : targetStep cfg [nA, nC] false u v so nA iA
      = .next (cleaningLog v nA ++ [Event.instantiated nA, Event.invoked nA]) := by
    simp [targetStep, hmA, hiA, hA]
  have hsC : targetStep cfg [nA, nC] false u v so nC iC
      = .next (cleaningLog v nC ++ [Event.instantiated nC, Event.invoked nC]) := by
    simp [targetStep, hmC, hiC, hC]
  have hsB := targetStep_of_not_selected cfg [nA, nC] false u v so nB iB hcB
  have hloop : targetLoop cfg [nA, nC] false u v so [(nA, iA), (nB, iB), (nC, iC)]
      = (cleaningLog v nA ++ ([Event.instantiated nA, Event.invoked nA]
          ++ (cleaningLog v nC ++ [Event.instantiated nC, Event.invoked nC])), .normal) := by
    simp [targetLoop, hsA, hsB, hsC]
  have htrace := runProcess_done cfg [nA, nC] false u v so
    [(nA, iA), (nB, iB), (nC, iC)] (by simp [hloop])
  have htr : (runProcess cfg [nA, nC] false u v so [(nA, iA), (nB, iB), (nC, iC)]).1
      = Event.diskMeasured ::
        (cleaningLog v nA ++ ([Event.instantiated nA, Event.invoked nA]
          ++ (cleaningLog v nC ++ ([Event.instantiated nC, Event.invoked nC]
          ++ ([Event.diskMeasured]
          ++ (if v = true then [Event.logComplete, Event.logFreed] else [])))))) := by
    rw [htrace, hloop]
    simp
  refine ⟨htr, ?_, ?_⟩ <;>
    (intro hmem
     rw [htr] at hmem
     cases v <;> simp [cleaningLog, hBA, hbc] at hmem)

/-- Witness for C7 at concrete names and well-behaved targets. -/
theorem explicit_selection_witness :
    Event.invoked "b" ∉ (runProcess [] ["a", "c"] false false true false
        [("a", initOk), ("b", initOk), ("c", initOk)]).1
    ∧ Event.instantiated "b" ∉ (runProcess [] ["a", "c"] false false true false
        [("a", initOk), ("b", initOk), ("c", initOk)]).1 := by
  have h := explicit_selection [] false true false "a" "b" "c" initOk initOk initOk
    ⟨Except.ok "noop", Except.ok ()⟩ ⟨Except.ok "noop", Except.ok ()⟩
    (by decide) (by decide) rfl rfl rfl rfl
  exact ⟨h.2.2, h.2.1⟩

/-! ### Claim C8 -/

theorem contains_filter_ne (names : List String) (z a : String) (ha : a ≠ z) :
    (names.filter (fun n => !(n == z))).contains a = names.contains a := by
  induction names with
  | nil => rfl
  | cons hd tl ih =>
    by_cases h : hd = z
    · have h3 : a ≠ hd := fun he => ha (by rw [he, h])
      have h1 : (!(hd == z)) = false := by simp [h]
      simp [List.filter_cons, h1, h3, ha, ih]
    · have h1 : (!(hd == z)) = true := by simp [h]
      simp [List.filter_cons, h1, ha, ih]

/-- Claim C8 counterexample: requesting the name "ghost", absent from the
registry, produces a run whose trace never mentions it — in particular
no error or resolution-failure line is logged for it — while the run
completes normally; the claim's "logs the resolution failure" does not
happen (cli never calls get_target). -/
theorem missing_requested_name_not_logged :
    ((runProcess [] ["ghost"] false false true false [("a", initOk)]).1.all
        (fun e => !(mentionsName e "ghost")) = true)
    ∧ (runProcess [] ["ghost"] false false true false [("a", initOk)]).2 = none := by decide

/-- Claim C8 (amended): a requested target name absent from the registry
snapshot is silently ignored — the run is identical to one where the
name was never requested (so the name is filtered out, never executed,
and the run is not aborted) and no event of the run mentions it; no
resolution-failure log is emitted, because the Runner only filters by
name and never calls the registry's get_target. -/
theorem missing_requested_name_ignored (cfg : GlobalCfg) (names : List String)
    (d u v s : Bool) (snapshot : List (String × LoopInit)) (z : String)
    (hz : z ∉ snapshot.map Prod.fst) :
    runProcess cfg names d u v s snapshot
      = runProcess cfg (names.filter (fun n => !(n == z))) d u v s snapshot
    ∧ (runProcess cfg names d u v s snapshot).1.all (fun e => !(mentionsName e z)) = true := by
  have hcong : targetLoop cfg names d u v s snapshot
      = targetLoop cfg (names.filter (fun n => !(n == z))) d u v s snapshot := by
    apply targetLoop_congr
    intro p hp
    have hpz : p.1 ≠ z := by
      intro he
      exact hz (he ▸ List.mem_map_of_mem Prod.fst hp)
    exact (contains_filter_ne names z p.1 hpz).symm
  constructor
  · simp only [runProcess, hcong]
  · rw [List.all_eq_true]
    intro e he
    have hfalse : mentionsName e z = false := by
      cases hmz : mentionsName e z
      · rfl
      · exfalso
        rcases runProcess_event_cases cfg names d u v s snapshot e he with h1 | h1 | h1 | h1
        · exact hz (targetLoop_mentions cfg names d u v s snapshot e h1 z hmz)
        all_goals (subst h1; simp [mentionsName] at hmz)
    simp [hfalse]

/-- Witness for C8's amended theorem at a concrete run. -/
theorem missing_requested_name_ignored_witness :
    runProcess [] ["ghost"] false false true false [("a", initOk)]
      = runProcess [] (["ghost"].filter (fun n => !(n == "ghost"))) false false true false
          [("a", initOk)] :=
  (missing_requested_name_ignored [] ["ghost"] false false true false [("a", initOk)]
    "ghost" (by decide)).1

/-! ### Claim C1 -/

/-- Claim C1, refuted at the failing input (the code is at fault: line 99
snapshots the registry before lines 112-115 register the extra YAML
directories, so registering them has no effect on the run): with one
built-in target and one extra directory providing mytarget, the final
registry does hold mytarget — it was added before the target loop began
— yet neither the execute trace nor the -l listing ever mentions it,
because both iterate the line-99 snapshot. -/
theorem cli_extra_yaml_targets_never_iterated :
    (dictLookup "mytarget"
        (cli semOk [("anaconda", RegEntry.native "A")] [] [[("mytarget", "mytarget.yaml")]]
          ⟨false, false, false, false, false, []⟩).1).isSome = true
    ∧ ((cli semOk [("anaconda", RegEntry.native "A")] [] [[("mytarget", "mytarget.yaml")]]
          ⟨false, false, false, false, false, []⟩).2.1.all
        (fun e => !(mentionsName e "mytarget")) = true)
    ∧ ((cli semOk [("anaconda", RegEntry.native "A")] [] [[("mytarget", "mytarget.yaml")]]
          ⟨false, false, false, true, false, []⟩).2.1.all
        (fun e => !(mentionsName e "mytarget")) = true) := by decide

end CleanMyMac
